import Mathlib

/-!
Verification development for the jellydump service (`src/main.py`).

The Python module keeps an in-memory job registry (`jobs : dict[str, dict]`
guarded by `jobs_lock`), a background download runner (`_run_download`), a
progress hook (`_yt_dlp_progress_hook`), and two HTTP handlers (`pull`,
`status`).  Every block that runs while holding `jobs_lock` is embedded here
as one atomic operation on a registry value; concurrent executions of the
program are therefore interleavings of these atomic operations, which we
model as traces of `Op`s.

Numeric conventions: Python timestamps are abstracted as `Nat` inputs, byte
counts and rates as `Nat` (yt-dlp reports non-negative numbers; the float
division in the percent computation is embedded as exact floor division,
and the `:.2f` formatting as exact round-half-even on rationals, which
coincides with CPython for the power-of-two denominators used here).
Filesystem paths are lists of path components; a filesystem is the set of
directories that exist.
-/

namespace Jellydump

/-- Job status strings stored in `jobs[job_id]["status"]`. -/
inductive Status where
  | pending
  | running
  | finished
  | failed
deriving DecidableEq

/-- `meta["status"] in ("pending", "running")` (main.py line 167). -/
def isActiveStatus : Status → Bool
  | .pending => true
  | .running => true
  | .finished => false
  | .failed => false

/-- The validated request body (`RequestPayload`, main.py lines 23-41).
`url` is kept abstract as its string form. -/
structure RequestPayload where
  url : String
  imdbid : String
  name : String
  season : Nat
deriving DecidableEq

/-- The pydantic validators (main.py lines 29-41): `imdbid` starts with
"tt" and has length at least 7, `season >= 1`. -/
def validPayload (p : RequestPayload) : Prop :=
  p.imdbid.data.take 2 = ['t', 't'] ∧ 7 ≤ p.imdbid.length ∧ 1 ≤ p.season

instance (p : RequestPayload) : Decidable (validPayload p) := by
  unfold validPayload; infer_instance

/-- One job record (the per-job dict stored in `jobs`).  Keys that a given
code path has not written yet are modelled as `none`. -/
structure Job where
  status : Status
  created_at : Option Nat := none
  started_at : Option Nat := none
  finished_at : Option Nat := none
  payload : Option RequestPayload := none
  progress_percent : Option Nat := none
  current_title : Option String := none
  speed : Option String := none
  current_episode : Option Nat := none
  result_path : Option String := none
  message : Option String := none
  error : Option String := none
deriving DecidableEq

/-! ### String helpers -/

/-- Python `f"{n:02d}"` for a non-negative `n`: zero-pad to a minimum
width of two digits (main.py lines 44 and 109). -/
def pad2 (n : Nat) : String :=
  if n < 10 then "0" ++ toString n else toString n

/-- Python `str.strip()` restricted to its whitespace behaviour: drop
leading and trailing whitespace characters (main.py line 104). -/
def py_strip (s : String) : String :=
  String.mk (((s.data.dropWhile Char.isWhitespace).reverse.dropWhile Char.isWhitespace).reverse)

/-- `build_output_template` (main.py lines 43-47). -/
def build_output_template (name : String) (season : Nat) : String :=
  let season_str := pad2 season
  let episode_placeholder := "%(autonumber)02d"
  name ++ " S" ++ season_str ++ "E" ++ episode_placeholder ++ ".%(ext)s"

/-! ### Directory snapshots and `count_media_files` -/

/-- One entry of `folder.iterdir()`, described by its name and whether it
is a regular file. -/
structure Entry where
  name : String
  is_file : Bool
deriving DecidableEq

/-- A snapshot of the directory a `Path` points at: whether it exists as a
directory, and its entries when it does. -/
structure Dir where
  is_dir : Bool
  entries : List Entry
deriving DecidableEq

/-- Index of the last '.' in a character list (Python `name.rfind('.')`),
`none` when there is no dot. -/
def rfindDot (cs : List Char) : Option Nat :=
  match (cs.reverse.findIdx? (fun c => c = '.')) with
  | none => none
  | some k => some (cs.length - 1 - k)

/-- `pathlib.PurePath.suffix`: the final extension including the dot;
empty when the last dot is at position 0 (hidden file) or at the very end
or absent. -/
def pathSuffix (name : String) : String :=
  let cs := name.data
  match rfindDot cs with
  | none => ""
  | some i => if 0 < i ∧ i < cs.length - 1 then String.mk (cs.drop i) else ""

/-- `count_media_files` (main.py lines 49-52): 0 when the folder is not a
directory, otherwise the number of regular-file entries whose suffix,
lowercased, equals the lowercased wanted suffix. -/
def count_media_files (folder : Dir) (suffix : String) : Nat :=
  if folder.is_dir then
    folder.entries.countP
      (fun p => p.is_file && ((pathSuffix p.name).toLower == suffix.toLower))
  else 0

/-! ### Progress adapter: percent and speed formatting -/

/-- `total = d.get("total_bytes") or d.get("total_bytes_estimate")`
(main.py line 59): Python `or` falls through on `None` and on `0`. -/
def effectiveTotal (total_bytes total_bytes_estimate : Option Nat) : Option Nat :=
  match total_bytes with
  | some n => if n = 0 then total_bytes_estimate else some n
  | none => total_bytes_estimate

/-- `percent = int((downloaded / total) * 100) if total else 0`
(main.py line 61), embedded as exact floor division; `some 0` and `none`
are both falsy for `if total`. -/
def percentOf (downloaded : Nat) (total : Option Nat) : Nat :=
  match total with
  | some t => if t = 0 then 0 else downloaded * 100 / t
  | none => 0

/-- Python `f"{num/den:.2f}"` for natural `num` and a positive power-of-two
`den`: round `num/den` to two decimals, ties to even.  For these
denominators the double holding `num/den` is exact, so CPython's output
agrees with this rational computation. -/
def fmt2 (num den : Nat) : String :=
  let scaled := num * 100
  let q := scaled / den
  let r := scaled % den
  let rounded :=
    if den < 2 * r then q + 1
    else if 2 * r < den then q
    else if q % 2 = 0 then q else q + 1
  toString (rounded / 100) ++ "." ++ pad2 (rounded % 100)

/-- The speed-formatting block of `_yt_dlp_progress_hook` (main.py lines
65-76).  `none` models `d.get("speed") is None`; `some 0` is also falsy in
`if speed_raw:`. -/
def formatSpeed (speed_raw : Option Nat) : String :=
  match speed_raw with
  | none => ""
  | some r =>
    if r = 0 then ""
    else if 1024 ^ 3 < r then fmt2 r (1024 ^ 3) ++ " GiB/s"
    else if 1024 ^ 2 < r then fmt2 r (1024 ^ 2) ++ " MiB/s"
    else if 1024 < r then fmt2 r 1024 ++ " KiB/s"
    else toString r ++ " B/s"

/-- A raw yt-dlp progress event, as read by the hook via `d.get(...)`. -/
structure Event where
  tag : String
  total_bytes : Option Nat := none
  total_bytes_estimate : Option Nat := none
  downloaded_bytes : Nat := 0
  title : String := ""
  speed : Option Nat := none
deriving DecidableEq

/-- The hook's early return guard (main.py lines 56-57): only
"downloading" and "finished" events are handled. -/
def hookHandles (ev : Event) : Bool :=
  ev.tag == "downloading" || ev.tag == "finished"

/-- The field merge a handled hook event performs on a job record
(main.py lines 59-88); `dir` is the snapshot of the season directory the
hook counts media files in. -/
def hookUpdate (ev : Event) (dir : Dir) (j : Job) : Job :=
  { j with
    progress_percent :=
      some (percentOf ev.downloaded_bytes (effectiveTotal ev.total_bytes ev.total_bytes_estimate)),
    current_title := some ev.title,
    speed := some (formatSpeed ev.speed),
    current_episode := some (count_media_files dir ".mp4") }

/-! ### The registry and its atomic operations -/

/-- Job identifiers (UUID strings abstracted as naturals). -/
abbrev JobId := Nat

/-- The `jobs` dict, as an association list; the Python dict has unique
keys, which valid traces preserve by only inserting fresh identifiers. -/
abbrev Reg := List (JobId × Job)

/-- `jobs.get(job_id)`. -/
def lookup : Reg → JobId → Option Job
  | [], _ => none
  | (k, j) :: rest, id => if k = id then some j else lookup rest id

/-- In-place mutation of the record stored under `id` (the first binding,
which is the only one in a duplicate-free registry). -/
def updateFirst : Reg → JobId → (Job → Job) → Reg
  | [], _, _ => []
  | (k, j) :: rest, id, f =>
    if k = id then (k, f j) :: rest else (k, j) :: updateFirst rest id f

/-- `any(meta["status"] in ("pending", "running") for meta in jobs.values())`
(main.py line 167). -/
def anyActive : Reg → Bool
  | [] => false
  | (_, j) :: rest => isActiveStatus j.status || anyActive rest

/-- Number of records whose status is `pending` or `running`. -/
def countActive : Reg → Nat
  | [] => 0
  | (_, j) :: rest => (if isActiveStatus j.status then 1 else 0) + countActive rest

/-- The record inserted by a successful `POST /pull` (main.py lines
174-179): status `pending`, a creation timestamp, and the payload. -/
def mkPendingJob (time : Nat) (p : RequestPayload) : Job :=
  { status := .pending, created_at := some time, payload := some p }

/-- The locked section of the `pull` handler (main.py lines 166-179): under
one exclusive lock, fail with HTTP 409 if any record is active, otherwise
insert a fresh pending record and return its identifier. -/
def pull (reg : Reg) (newId : JobId) (time : Nat) (p : RequestPayload) :
    Except Nat (Reg × JobId) :=
  if anyActive reg then .error 409
  else .ok ((newId, mkPendingJob time p) :: reg, newId)

/-- The runner's first locked block (main.py lines 94-101): set status
`running`, record `started_at`, reset the progress fields. -/
def startUpdate (time : Nat) (j : Job) : Job :=
  { j with
    status := .running, started_at := some time,
    progress_percent := some 0, current_title := some "", speed := some "" }

/-- The success finalizer (main.py lines 138-147). -/
def finishOkUpdate (time : Nat) (path : String) (j : Job) : Job :=
  { j with
    status := .finished, finished_at := some time,
    result_path := some path,
    message := some "Download completed successfully",
    progress_percent := some 100, current_title := some "", speed := some "" }

/-- The failure finalizers (main.py lines 149-162): status `failed`,
`finished_at`, and the error text; other fields are left as they were. -/
def finishErrUpdate (time : Nat) (msg : String) (j : Job) : Job :=
  { j with status := .failed, finished_at := some time, error := some msg }

/-- One atomic locked section touching the registry.  `hook` carries the
raw event and the season-directory snapshot it counted; timestamps are
explicit inputs standing for `datetime.now()`. -/
inductive Op where
  | pull (id : JobId) (time : Nat) (p : RequestPayload)
  | start (id : JobId) (time : Nat)
  | hook (id : JobId) (ev : Event) (dir : Dir)
  | finishOk (id : JobId) (time : Nat) (path : String)
  | finishErr (id : JobId) (time : Nat) (msg : String)

/-- Effect of one atomic section on the registry.  The hook checks its tag
before touching the registry and silently skips a vanished job (the
`jobs.get(job_id)` guard is `updateFirst`'s no-op on a missing key). -/
def applyOp (reg : Reg) : Op → Reg
  | .pull id time p =>
    match pull reg id time p with
    | .error _ => reg
    | .ok (reg', _) => reg'
  | .start id time => updateFirst reg id (startUpdate time)
  | .hook id ev dir =>
    if hookHandles ev then updateFirst reg id (hookUpdate ev dir) else reg
  | .finishOk id time path => updateFirst reg id (finishOkUpdate time path)
  | .finishErr id time msg => updateFirst reg id (finishErrUpdate time msg)

/-- Which atomic sections the program can actually issue in a given state:
`pull` draws a fresh UUID; a runner sets `running` as its first write while
its job is still the freshly inserted pending record; the finalizers are a
runner's last write, after its own `start` and before any other writer
touches the status.  Hook events may fire at any time. -/
def validOp (reg : Reg) : Op → Prop
  | .pull id _ _ => lookup reg id = none
  | .start id _ => ∃ j, lookup reg id = some j ∧ j.status = .pending
  | .hook _ _ _ => True
  | .finishOk id _ _ => ∃ j, lookup reg id = some j ∧ j.status = .running
  | .finishErr id _ _ => ∃ j, lookup reg id = some j ∧ j.status = .running

/-- A trace of atomic sections, each valid in the state it runs in. -/
inductive ValidTrace : Reg → List Op → Prop where
  | nil {reg : Reg} : ValidTrace reg []
  | cons {reg : Reg} {op : Op} {ops : List Op} :
      validOp reg op → ValidTrace (applyOp reg op) ops → ValidTrace reg (op :: ops)

/-- Run a trace of atomic sections. -/
def runTrace (reg : Reg) : List Op → Reg
  | [] => reg
  | op :: ops => runTrace (applyOp reg op) ops

/-! ### Filesystem model and the runner -/

/-- Directory paths as component lists. -/
abbrev DirPath := List String

/-- The set of directories that exist, as a list. -/
structure FS where
  dirs : List DirPath
deriving DecidableEq

/-- The non-empty prefixes of a path: itself and all its ancestors. -/
def pathPrefixes (p : DirPath) : List DirPath :=
  p.inits.filter (fun q => !q.isEmpty)

/-- Add a directory if it is missing. -/
def addIfAbsent (ds : List DirPath) (q : DirPath) : List DirPath :=
  if q ∈ ds then ds else q :: ds

/-- `Path.mkdir(parents=True, exist_ok=True)` (main.py line 107): create
the directory and every missing ancestor; never an error. -/
def mkdirAll (fs : FS) (p : DirPath) : FS :=
  { dirs := (pathPrefixes p).foldl addIfAbsent fs.dirs }

inductive MkdirErr where
  | already_exists
  | missing_parent
deriving DecidableEq

/-- `Path.mkdir(parents=False, exist_ok=False)` (main.py line 112):
`FileExistsError` when the directory exists, `FileNotFoundError` when its
parent is missing, otherwise create exactly this directory. -/
def mkdirExclusive (fs : FS) (p : DirPath) : Except MkdirErr FS :=
  if p ∈ fs.dirs then .error .already_exists
  else if p.dropLast ∈ fs.dirs ∨ p.dropLast = [] then .ok { dirs := p :: fs.dirs }
  else .error .missing_parent

/-- `f"{safe_name} [imdbid-{payload.imdbid}]"` (main.py lines 104-105). -/
def main_folder_name (p : RequestPayload) : String :=
  py_strip p.name ++ " [imdbid-" ++ p.imdbid ++ "]"

/-- `f"Season {season_str}"` (main.py lines 109-110). -/
def season_folder_name (p : RequestPayload) : String :=
  "Season " ++ pad2 p.season

/-- `BASE_DATA_DIR / main_folder_name`; the base data path is a parameter
(it comes from the environment). -/
def mainDirOf (base : DirPath) (p : RequestPayload) : DirPath :=
  base ++ [main_folder_name p]

/-- `main_dir / season_folder_name`. -/
def seasonDirOf (base : DirPath) (p : RequestPayload) : DirPath :=
  mainDirOf base p ++ [season_folder_name p]

/-- Render a path the way `str(season_dir)` does. -/
def pathString (p : DirPath) : String :=
  String.intercalate "/" p

/-- `str(season_dir / output_template)` (main.py line 116). -/
def ydl_outtmpl (base : DirPath) (p : RequestPayload) : String :=
  pathString (seasonDirOf base p) ++ "/" ++ build_output_template (py_strip p.name) p.season

/-- The observable behaviour of one `ydl.download` call: the progress
events it pushes (each with the season-directory snapshot current when the
hook ran) and whether it returns normally or raises (with `str(exc)`). -/
structure DLInput where
  events : List (Event × Dir)
  outcome : Except String Unit

/-- Apply the hook for each event the download emitted. -/
def runHooks (id : JobId) (reg : Reg) (events : List (Event × Dir)) : Reg :=
  events.foldl (fun r ed => applyOp r (.hook id ed.1 ed.2)) reg

/-- `_run_download` (main.py lines 91-162): mark the job running; ensure the
root folder with exist-ok semantics; create the season folder exclusively,
converting `FileExistsError` into a `failed` record reading "Season folder
already exists"; otherwise run the download (hook events stream in), then
finalize to `finished` on normal return or to `failed` with the exception
text on any other exception.  Returns the final registry and filesystem. -/
def run_download (base : DirPath) (reg : Reg) (fs : FS) (id : JobId)
    (p : RequestPayload) (tStart tEnd : Nat) (dl : DLInput) : Reg × FS :=
  let reg1 := applyOp reg (.start id tStart)
  let main_dir := mainDirOf base p
  let fs1 := mkdirAll fs main_dir
  let season_dir := seasonDirOf base p
  match mkdirExclusive fs1 season_dir with
  | .error .already_exists =>
    (applyOp reg1 (.finishErr id tEnd "Season folder already exists"), fs1)
  | .error .missing_parent =>
    (applyOp reg1 (.finishErr id tEnd "No such file or directory"), fs1)
  | .ok fs2 =>
    let reg2 := runHooks id reg1 dl.events
    match dl.outcome with
    | .error msg => (applyOp reg2 (.finishErr id tEnd msg), fs2)
    | .ok _ => (applyOp reg2 (.finishOk id tEnd (pathString season_dir)), fs2)

/-! ### Status ordering for the lifecycle claim -/

/-- Status of the record under `id`, `none` when no such record exists. -/
def statusAt (reg : Reg) (id : JobId) : Option Status :=
  (lookup reg id).map Job.status

/-- Position along the lifecycle `pending → running → {finished, failed}`;
a missing record sits below `pending`. -/
def lifecycleRank : Option Status → Nat
  | none => 0
  | some .pending => 1
  | some .running => 2
  | some .finished => 3
  | some .failed => 3

/-- Terminal statuses. -/
def isTerminal : Option Status → Bool
  | some .finished => true
  | some .failed => true
  | _ => false

/-! ### Naming shapes taken from the spec's words (for refinement
comparison against the code's naming functions) -/

/-- Spec wording: the root output folder is
`<display name> [imdbid-<catalog id>]`. -/
def specRootFolder (displayName catalogId : String) : String :=
  displayName ++ " [imdbid-" ++ catalogId ++ "]"

/-- Spec wording: season subfolder is
`Season <season, zero-padded to width 2>`. -/
def specSeasonFolder (season : Nat) : String :=
  "Season " ++ pad2 season

/-- Spec wording: output filenames follow
`<display name> S<season 2-digit>E<autonumber 2-digit>.<ext>`, with the
downloader's autonumber and extension placeholders. -/
def specFileTemplate (displayName : String) (season : Nat) : String :=
  displayName ++ " S" ++ pad2 season ++ "E%(autonumber)02d.%(ext)s"

/-! ### Concrete instances used by the closed corollaries -/

/-- A well-formed request, as in the spec's scenario. -/
def demoPayload : RequestPayload :=
  { url := "https://example.com/v", imdbid := "tt1234567", name := "Show", season := 1 }

/-- The same request with surrounding whitespace in the display name. -/
def demoPaddedPayload : RequestPayload :=
  { url := "https://example.com/v", imdbid := "tt1234567", name := " Show", season := 1 }

/-- A record as `pull` creates it. -/
def demoPendingJob : Job := mkPendingJob 0 demoPayload

/-- The same record once its runner has started. -/
def demoRunningJob : Job := startUpdate 1 demoPendingJob

/-- A registry holding one running job under id 0. -/
def demoRunningReg : Reg := [(0, demoRunningJob)]

/-- A nonexistent-directory snapshot (the hook's count sees no files). -/
def demoNoDir : Dir := { is_dir := false, entries := [] }

/-- A progress event whose downloaded byte count exceeds its total. -/
def demoOverEvent : Event :=
  { tag := "downloading", total_bytes := some 1, downloaded_bytes := 2 }

/-- A benign progress event. -/
def demoEvent : Event :=
  { tag := "downloading", total_bytes := some 200, downloaded_bytes := 50,
    title := "clip", speed := some 2048 }

/-- A download run that emits one event and returns normally. -/
def demoDL : DLInput := { events := [(demoEvent, demoNoDir)], outcome := .ok () }

/-- The record the demo trace leaves behind. -/
def demoFinishedJob : Job :=
  finishOkUpdate 2 "data/Show [imdbid-tt1234567]/Season 01"
    (hookUpdate demoEvent demoNoDir demoRunningJob)

/-- A base data directory. -/
def demoBase : DirPath := ["data"]

/-- An empty filesystem. -/
def demoFS : FS := { dirs := [] }

/-- A filesystem in which the demo request's season directory already
exists. -/
def demoFSSeasonTaken : FS := { dirs := [seasonDirOf demoBase demoPayload] }

/-- A filesystem in which only the demo request's root folder exists. -/
def demoFSRootOnly : FS := { dirs := [mainDirOf demoBase demoPayload] }

/-- A trace: one successful pull, its runner starting, a progress event,
and a successful finish. -/
def demoTrace : List Op :=
  [.pull 0 0 demoPayload, .start 0 1, .hook 0 demoEvent demoNoDir,
   .finishOk 0 2 "data/Show [imdbid-tt1234567]/Season 01"]

/-- A directory listing with two finished episodes and one stray file. -/
def demoSeasonDir : Dir :=
  { is_dir := true,
    entries := [{ name := "Show S01E01.mp4", is_file := true },
                { name := "Show S01E02.MP4", is_file := true },
                { name := "notes.txt", is_file := true }] }

/-! ### Registry lemmas -/

theorem lookup_mem {reg : Reg} {id : JobId} {j : Job} (h : lookup reg id = some j) :
    (id, j) ∈ reg := by
  induction reg with
  | nil => simp [lookup] at h
  | cons hd tl ih =>
    obtain ⟨k, j'⟩ := hd
    by_cases hk : k = id
    · subst hk
      simp [lookup] at h
      subst h
      exact List.mem_cons_self _ _
    · simp [lookup, hk] at h
      exact List.mem_cons_of_mem _ (ih h)

theorem lookup_updateFirst_self {reg : Reg} {id : JobId} {j : Job} (f : Job → Job)
    (h : lookup reg id = some j) :
    lookup (updateFirst reg id f) id = some (f j) := by
  induction reg with
  | nil => simp [lookup] at h
  | cons hd tl ih =>
    obtain ⟨k, j'⟩ := hd
    by_cases hk : k = id
    · subst hk
      simp [lookup] at h
      subst h
      simp [updateFirst, lookup]
    · simp [lookup, hk] at h
      simp [updateFirst, lookup, hk]
      exact ih h

theorem lookup_updateFirst_ne {reg : Reg} {id id' : JobId} (f : Job → Job)
    (h : id' ≠ id) :
    lookup (updateFirst reg id f) id' = lookup reg id' := by
  induction reg with
  | nil => simp [updateFirst]
  | cons hd tl ih =>
    obtain ⟨k, j⟩ := hd
    by_cases hk : k = id
    · have hii : ¬ (id = id') := fun e => h e.symm
      simp [updateFirst, lookup, hk, hii]
    · simp [updateFirst, lookup, hk]
      by_cases hk' : k = id'
      · simp [hk']
      · simp [hk', ih]

theorem updateFirst_of_lookup_none {reg : Reg} {id : JobId} (f : Job → Job)
    (h : lookup reg id = none) :
    updateFirst reg id f = reg := by
  induction reg with
  | nil => simp [updateFirst]
  | cons hd tl ih =>
    obtain ⟨k, j⟩ := hd
    by_cases hk : k = id
    · subst hk; simp [lookup] at h
    · simp [lookup, hk] at h
      simp [updateFirst, hk, ih h]

theorem mem_updateFirst {reg : Reg} {id : JobId} {f : Job → Job} {q : JobId × Job}
    (h : q ∈ updateFirst reg id f) :
    q ∈ reg ∨ ∃ j, lookup reg id = some j ∧ q = (id, f j) := by
  induction reg with
  | nil => simp [updateFirst] at h
  | cons hd tl ih =>
    obtain ⟨k, j'⟩ := hd
    by_cases hk : k = id
    · subst hk
      simp [updateFirst] at h
      rcases h with h | h
      · exact Or.inr ⟨j', by simp [lookup], h⟩
      · exact Or.inl (List.mem_cons_of_mem _ h)
    · simp [updateFirst, hk] at h
      rcases h with h | h
      · exact Or.inl (by simp [h])
      · rcases ih h with h' | ⟨j, hj, hq⟩
        · exact Or.inl (List.mem_cons_of_mem _ h')
        · exact Or.inr ⟨j, by simp [lookup, hk, hj], hq⟩

theorem updateFirst_updateFirst {reg : Reg} {id : JobId} (f g : Job → Job) :
    updateFirst (updateFirst reg id f) id g = updateFirst reg id (fun j => g (f j)) := by
  induction reg with
  | nil => simp [updateFirst]
  | cons hd tl ih =>
    obtain ⟨k, j⟩ := hd
    by_cases hk : k = id
    · subst hk; simp [updateFirst]
    · simp [updateFirst, hk, ih]

theorem countActive_updateFirst {reg : Reg} {id : JobId} {j : Job} (f : Job → Job)
    (h : lookup reg id = some j) :
    countActive (updateFirst reg id f) + (if isActiveStatus j.status then 1 else 0)
      = countActive reg + (if isActiveStatus (f j).status then 1 else 0) := by
  induction reg with
  | nil => simp [lookup] at h
  | cons hd tl ih =>
    obtain ⟨k, j'⟩ := hd
    by_cases hk : k = id
    · subst hk
      simp [lookup] at h
      subst h
      simp [updateFirst, countActive]
      omega
    · simp [lookup, hk] at h
      simp [updateFirst, hk, countActive]
      have := ih h
      omega

theorem anyActive_false_iff {reg : Reg} :
    anyActive reg = false ↔ ∀ q ∈ reg, isActiveStatus (Prod.snd q).status = false := by
  induction reg with
  | nil => simp [anyActive]
  | cons hd tl ih =>
    obtain ⟨k, j⟩ := hd
    simp [anyActive, ih]

theorem countActive_eq_zero_of_not_anyActive {reg : Reg} (h : anyActive reg = false) :
    countActive reg = 0 := by
  induction reg with
  | nil => simp [countActive]
  | cons hd tl ih =>
    obtain ⟨k, j⟩ := hd
    simp [anyActive] at h
    simp [countActive, h.1, ih h.2]

/-! ### The registry invariant -/

/-- The spec's registry invariants, as one inductive invariant over the
atomic operations: at most one active record, `result_path` exactly on
`finished`, `error` exactly on `failed`. -/
structure Inv (reg : Reg) : Prop where
  one_active : countActive reg ≤ 1
  rp_iff : ∀ q ∈ reg, ((Prod.snd q).result_path ≠ none ↔ (Prod.snd q).status = .finished)
  err_iff : ∀ q ∈ reg, ((Prod.snd q).error ≠ none ↔ (Prod.snd q).status = .failed)

theorem inv_nil : Inv [] :=
  ⟨by simp [countActive], by simp, by simp⟩

theorem inv_step {reg : Reg} {op : Op} (h : Inv reg) (hv : validOp reg op) :
    Inv (applyOp reg op) := by
  cases op with
  | pull id time p =>
    by_cases hA : anyActive reg
    · simpa [applyOp, pull, hA] using h
    · simp only [Bool.not_eq_true] at hA
      have hc0 : countActive reg = 0 := countActive_eq_zero_of_not_anyActive hA
      refine ⟨?_, ?_, ?_⟩
      · simp [applyOp, pull, hA, countActive, mkPendingJob, isActiveStatus, hc0]
      · intro q hq
        simp [applyOp, pull, hA] at hq
        rcases hq with hq | hq
        · simp [hq, mkPendingJob]
        · exact h.rp_iff q hq
      · intro q hq
        simp [applyOp, pull, hA] at hq
        rcases hq with hq | hq
        · simp [hq, mkPendingJob]
        · exact h.err_iff q hq
  | start id time =>
    obtain ⟨j, hj, hst⟩ := hv
    refine ⟨?_, ?_, ?_⟩
    · have := countActive_updateFirst (startUpdate time) hj
      have h1 := h.one_active
      simp [hst, isActiveStatus, startUpdate] at this
      simp only [applyOp]
      omega
    · intro q hq
      simp only [applyOp] at hq
      rcases mem_updateFirst hq with hq' | ⟨j', hj', rfl⟩
      · exact h.rp_iff q hq'
      · rw [hj] at hj'
        injection hj' with e
        subst e
        have := h.rp_iff (id, j) (lookup_mem hj)
        simp [startUpdate, hst] at this ⊢
        simpa [hst] using this
    · intro q hq
      simp only [applyOp] at hq
      rcases mem_updateFirst hq with hq' | ⟨j', hj', rfl⟩
      · exact h.err_iff q hq'
      · rw [hj] at hj'
        injection hj' with e
        subst e
        have := h.err_iff (id, j) (lookup_mem hj)
        simp [startUpdate, hst] at this ⊢
        simpa [hst] using this
  | hook id ev dir =>
    by_cases hh : hookHandles ev
    · cases hl : lookup reg id with
      | none =>
        simpa [applyOp, hh, updateFirst_of_lookup_none _ hl] using h
      | some j =>
        refine ⟨?_, ?_, ?_⟩
        · have := countActive_updateFirst (hookUpdate ev dir) hl
          have h1 := h.one_active
          simp [hookUpdate] at this
          simp only [applyOp, hh, if_true]
          omega
        · intro q hq
          simp only [applyOp, hh, if_true] at hq
          rcases mem_updateFirst hq with hq' | ⟨j', hj', rfl⟩
          · exact h.rp_iff q hq'
          · rw [hl] at hj'
            injection hj' with e
            subst e
            have := h.rp_iff (id, j) (lookup_mem hl)
            simpa [hookUpdate] using this
        · intro q hq
          simp only [applyOp, hh, if_true] at hq
          rcases mem_updateFirst hq with hq' | ⟨j', hj', rfl⟩
          · exact h.err_iff q hq'
          · rw [hl] at hj'
            injection hj' with e
            subst e
            have := h.err_iff (id, j) (lookup_mem hl)
            simpa [hookUpdate] using this
    · simpa [applyOp, hh] using h
  | finishOk id time path =>
    obtain ⟨j, hj, hst⟩ := hv
    refine ⟨?_, ?_, ?_⟩
    · have := countActive_updateFirst (finishOkUpdate time path) hj
      have h1 := h.one_active
      simp [hst, isActiveStatus, finishOkUpdate] at this
      simp only [applyOp]
      omega
    · intro q hq
      simp only [applyOp] at hq
      rcases mem_updateFirst hq with hq' | ⟨j', hj', rfl⟩
      · exact h.rp_iff q hq'
      · rw [hj] at hj'
        injection hj' with e
        subst e
        simp [finishOkUpdate]
    · intro q hq
      simp only [applyOp] at hq
      rcases mem_updateFirst hq with hq' | ⟨j', hj', rfl⟩
      · exact h.err_iff q hq'
      · rw [hj] at hj'
        injection hj' with e
        subst e
        have := h.err_iff (id, j) (lookup_mem hj)
        simp [hst] at this
        simp [finishOkUpdate, this]
  | finishErr id time msg =>
    obtain ⟨j, hj, hst⟩ := hv
    refine ⟨?_, ?_, ?_⟩
    · have := countActive_updateFirst (finishErrUpdate time msg) hj
      have h1 := h.one_active
      simp [hst, isActiveStatus, finishErrUpdate] at this
      simp only [applyOp]
      omega
    · intro q hq
      simp only [applyOp] at hq
      rcases mem_updateFirst hq with hq' | ⟨j', hj', rfl⟩
      · exact h.rp_iff q hq'
      · rw [hj] at hj'
        injection hj' with e
        subst e
        have := h.rp_iff (id, j) (lookup_mem hj)
        simp [hst] at this
        simp [finishErrUpdate, this]
    · intro q hq
      simp only [applyOp] at hq
      rcases mem_updateFirst hq with hq' | ⟨j', hj', rfl⟩
      · exact h.err_iff q hq'
      · rw [hj] at hj'
        injection hj' with e
        subst e
        simp [finishErrUpdate]

theorem inv_runTrace {reg : Reg} {ops : List Op} (h : Inv reg) (hv : ValidTrace reg ops) :
    Inv (runTrace reg ops) := by
  induction hv with
  | nil => exact h
  | cons hop htail ih => exact ih (inv_step h hop)

/-! ### Hook streams preserve the runner-owned fields -/

theorem lookup_applyOp_hook {reg : Reg} {id : JobId} {j : Job} (ev : Event) (dir : Dir)
    (h : lookup reg id = some j) :
    ∃ j', lookup (applyOp reg (.hook id ev dir)) id = some j' ∧
      j'.status = j.status ∧ j'.finished_at = j.finished_at ∧
      j'.error = j.error ∧ j'.result_path = j.result_path := by
  by_cases hh : hookHandles ev
  · refine ⟨hookUpdate ev dir j, ?_, by simp [hookUpdate]⟩
    simp only [applyOp, hh, if_true]
    exact lookup_updateFirst_self _ h
  · exact ⟨j, by simp [applyOp, hh, h], by simp⟩

theorem lookup_runHooks {id : JobId} (events : List (Event × Dir)) :
    ∀ {reg : Reg} {j : Job}, lookup reg id = some j →
      ∃ j', lookup (runHooks id reg events) id = some j' ∧
        j'.status = j.status ∧ j'.finished_at = j.finished_at ∧
        j'.error = j.error ∧ j'.result_path = j.result_path := by
  induction events with
  | nil => intro reg j h; exact ⟨j, h, by simp⟩
  | cons ed rest ih =>
    intro reg j h
    obtain ⟨j1, h1, hs1, hf1, he1, hr1⟩ := lookup_applyOp_hook ed.1 ed.2 h
    obtain ⟨j2, h2, hs2, hf2, he2, hr2⟩ := ih h1
    exact ⟨j2, by simpa [runHooks] using h2,
      by rw [hs2, hs1], by rw [hf2, hf1], by rw [he2, he1], by rw [hr2, hr1]⟩

/-! ### Filesystem lemmas -/

theorem mem_foldl_addIfAbsent_of_mem {q : DirPath} (l : List DirPath) :
    ∀ {ds : List DirPath}, q ∈ ds → q ∈ l.foldl addIfAbsent ds := by
  induction l with
  | nil => intro ds h; simpa using h
  | cons x rest ih =>
    intro ds h
    refine ih ?_
    unfold addIfAbsent
    split
    · exact h
    · exact List.mem_cons_of_mem _ h

theorem mem_foldl_addIfAbsent_of_mem_list {q : DirPath} (l : List DirPath) :
    ∀ {ds : List DirPath}, q ∈ l → q ∈ l.foldl addIfAbsent ds := by
  induction l with
  | nil => intro ds h; simp at h
  | cons x rest ih =>
    intro ds h
    rcases List.mem_cons.mp h with h | h
    · subst h
      refine mem_foldl_addIfAbsent_of_mem rest ?_
      unfold addIfAbsent
      split
      · assumption
      · exact List.mem_cons_self _ _
    · exact ih h

theorem mem_of_mem_foldl_addIfAbsent {q : DirPath} (l : List DirPath) :
    ∀ {ds : List DirPath}, q ∈ l.foldl addIfAbsent ds → q ∈ ds ∨ q ∈ l := by
  induction l with
  | nil => intro ds h; exact Or.inl (by simpa using h)
  | cons x rest ih =>
    intro ds h
    rcases ih h with h' | h'
    · unfold addIfAbsent at h'
      split at h'
      · exact Or.inl h'
      · rcases List.mem_cons.mp h' with h'' | h''
        · exact Or.inr (by simp [h''])
        · exact Or.inl h''
    · exact Or.inr (List.mem_cons_of_mem _ h')

theorem mem_mkdirAll_of_mem {fs : FS} {p q : DirPath} (h : q ∈ fs.dirs) :
    q ∈ (mkdirAll fs p).dirs :=
  mem_foldl_addIfAbsent_of_mem _ h

theorem mem_mkdirAll_of_prefix {fs : FS} {p q : DirPath} (h : q ∈ pathPrefixes p) :
    q ∈ (mkdirAll fs p).dirs :=
  mem_foldl_addIfAbsent_of_mem_list _ h

theorem mem_of_mem_mkdirAll {fs : FS} {p q : DirPath} (h : q ∈ (mkdirAll fs p).dirs) :
    q ∈ fs.dirs ∨ q ∈ pathPrefixes p :=
  mem_of_mem_foldl_addIfAbsent _ h

theorem length_le_of_mem_pathPrefixes {p q : DirPath} (h : q ∈ pathPrefixes p) :
    q.length ≤ p.length := by
  unfold pathPrefixes at h
  have h' : q ∈ p.inits := List.mem_of_mem_filter h
  exact (List.mem_inits q p).mp h' |>.length_le

theorem self_mem_pathPrefixes {p : DirPath} (h : p ≠ []) : p ∈ pathPrefixes p := by
  unfold pathPrefixes
  refine List.mem_filter.mpr ⟨(List.mem_inits p p).mpr (List.prefix_refl p), ?_⟩
  simpa using h

/-- The demo trace is a valid interleaving: pull, runner start, one
progress event, successful finish. -/
theorem demoTrace_valid : ValidTrace [] demoTrace := by
  refine ValidTrace.cons ?_ (ValidTrace.cons ?_ (ValidTrace.cons ?_
    (ValidTrace.cons ?_ ValidTrace.nil)))
  · exact (by decide : lookup ([] : Reg) 0 = none)
  · exact ⟨demoPendingJob, by decide, by decide⟩
  · exact trivial
  · exact ⟨hookUpdate demoEvent demoNoDir demoRunningJob, by decide, by decide⟩

/-! ### Claim theorems -/

/-- C1: if any record is `pending` or `running`, a create-job request fails
with 409 and leaves the registry unchanged; otherwise the atomic
check-and-insert adds one `pending` record; consequently along every valid
interleaving of the atomic locked sections, at most one job is active
system-wide. -/
theorem claim1_single_active_create :
    (∀ (reg : Reg) (id : JobId) (t : Nat) (p : RequestPayload),
        anyActive reg = true →
          pull reg id t p = .error 409 ∧ applyOp reg (.pull id t p) = reg) ∧
    (∀ (reg : Reg) (id : JobId) (t : Nat) (p : RequestPayload),
        anyActive reg = false →
          pull reg id t p = .ok ((id, mkPendingJob t p) :: reg, id) ∧
          (mkPendingJob t p).status = .pending) ∧
    (∀ ops : List Op, ValidTrace [] ops → countActive (runTrace [] ops) ≤ 1) := by
  refine ⟨?_, ?_, ?_⟩
  · intro reg id t p h
    exact ⟨by simp [pull, h], by simp [applyOp, pull, h]⟩
  · intro reg id t p h
    exact ⟨by simp [pull, h], rfl⟩
  · intro ops h
    exact (inv_runTrace inv_nil h).one_active

/-- C1 witness: a conflicting pull against a running job, and the single
active job bound along the demo trace. -/
theorem claim1_witness :
    (pull demoRunningReg 7 5 demoPayload = .error 409 ∧
      applyOp demoRunningReg (.pull 7 5 demoPayload) = demoRunningReg) ∧
    countActive (runTrace [] demoTrace) ≤ 1 := by
  refine ⟨?_, ?_⟩
  · exact claim1_single_active_create.1 demoRunningReg 7 5 demoPayload (by decide)
  · exact claim1_single_active_create.2.2 demoTrace demoTrace_valid

/-- C3 counterexample: a progress event whose downloaded byte count (2)
exceeds its reported total (1) stores `progress_percent = 200`, outside
the claimed range 0-100. -/
theorem claim3_counterexample :
    (lookup (applyOp demoRunningReg (.hook 0 demoOverEvent demoNoDir)) 0).map
        Job.progress_percent = some (some 200) ∧
      ¬ (200 ≤ 100) := by decide

/-- C3 (amended): `progress_percent` is `floor(downloaded * 100 / total)`
when the effective total is known and nonzero, `0` otherwise; it stays in
0-100 whenever `downloaded ≤ total` but is not clamped above; the success
finalizer forces it to 100; and a handled hook event stores exactly this
value. -/
theorem claim3_progress_percent :
    (∀ d t : Nat, 0 < t → percentOf d (some t) = d * 100 / t) ∧
    (∀ d : Nat, percentOf d none = 0 ∧ percentOf d (some 0) = 0) ∧
    (∀ d t : Nat, d ≤ t → percentOf d (some t) ≤ 100) ∧
    (∀ (reg : Reg) (id : JobId) (t : Nat) (path : String) (j : Job),
        lookup reg id = some j →
        ∃ j', lookup (applyOp reg (.finishOk id t path)) id = some j' ∧
          j'.progress_percent = some 100) ∧
    (∀ (reg : Reg) (id : JobId) (ev : Event) (dir : Dir) (j : Job),
        hookHandles ev = true → lookup reg id = some j →
        ∃ j', lookup (applyOp reg (.hook id ev dir)) id = some j' ∧
          j'.progress_percent =
            some (percentOf ev.downloaded_bytes
              (effectiveTotal ev.total_bytes ev.total_bytes_estimate))) := by
  refine ⟨?_, ?_, ?_, ?_, ?_⟩
  · intro d t ht
    simp [percentOf, Nat.pos_iff_ne_zero.mp ht]
  · intro d
    exact ⟨rfl, by simp [percentOf]⟩
  · intro d t h
    by_cases ht : t = 0
    · simp [percentOf, ht]
    · simp only [percentOf, ht, if_false]
      have h1 : d * 100 ≤ t * 100 := Nat.mul_le_mul_right 100 h
      have h2 : d * 100 / t ≤ t * 100 / t := Nat.div_le_div_right h1
      have h3 : t * 100 / t = 100 :=
        Nat.mul_div_cancel_left 100 (Nat.pos_of_ne_zero ht)
      omega
  · intro reg id t path j hj
    refine ⟨finishOkUpdate t path j, ?_, rfl⟩
    simp only [applyOp]
    exact lookup_updateFirst_self _ hj
  · intro reg id ev dir j hh hj
    refine ⟨hookUpdate ev dir j, ?_, rfl⟩
    simp only [applyOp, hh, if_true]
    exact lookup_updateFirst_self _ hj

/-- C3 witness: the floor formula, the in-range bound, and the forced 100
on finish, each at concrete inputs. -/
theorem claim3_witness :
    percentOf 50 (some 200) = 50 * 100 / 200 ∧
    percentOf 50 (some 200) ≤ 100 ∧
    ∃ j', lookup (applyOp demoRunningReg (.finishOk 0 2 "out")) 0 = some j' ∧
      j'.progress_percent = some 100 := by
  refine ⟨?_, ?_, ?_⟩
  · exact claim3_progress_percent.1 50 200 (by decide)
  · exact claim3_progress_percent.2.2.1 50 200 (by decide)
  · exact claim3_progress_percent.2.2.2.1 demoRunningReg 0 2 "out" demoRunningJob (by decide)

/-- C6: every atomic section the program can issue moves any job's status
only forward along `pending → running → {finished, failed}`: the
lifecycle rank never decreases, a terminal status is never changed, and a
pending job can only stay pending or move to running (never jump to a
terminal state). -/
theorem claim6_status_monotone :
    ∀ (reg : Reg) (op : Op) (id : JobId), validOp reg op →
      lifecycleRank (statusAt reg id) ≤ lifecycleRank (statusAt (applyOp reg op) id) ∧
      (isTerminal (statusAt reg id) = true →
        statusAt (applyOp reg op) id = statusAt reg id) ∧
      (statusAt reg id = some .pending →
        statusAt (applyOp reg op) id = some .pending ∨
        statusAt (applyOp reg op) id = some .running) := by
  intro reg op id hv
  have triv : ∀ s : Option Status,
      lifecycleRank s ≤ lifecycleRank s ∧ (isTerminal s = true → s = s) ∧
      (s = some .pending → s = some .pending ∨ s = some .running) :=
    fun s => ⟨le_refl _, fun _ => rfl, fun h => Or.inl h⟩
  cases op with
  | pull pid t p =>
    by_cases hA : anyActive reg
    · have heq : applyOp reg (.pull pid t p) = reg := by simp [applyOp, pull, hA]
      rw [heq]; exact triv _
    · simp only [Bool.not_eq_true] at hA
      by_cases hid : pid = id
      · have hv' : lookup reg pid = none := hv
        have hl : lookup reg id = none := hid ▸ hv'
        have hb : statusAt reg id = none := by simp [statusAt, hl]
        have ha : statusAt (applyOp reg (.pull pid t p)) id = some .pending := by
          simp [applyOp, pull, hA, statusAt, lookup, hid, mkPendingJob]
        rw [hb, ha]; decide
      · have heq : statusAt (applyOp reg (.pull pid t p)) id = statusAt reg id := by
          simp [applyOp, pull, hA, statusAt, lookup, hid]
        rw [heq]; exact triv _
  | start sid t =>
    obtain ⟨j, hj, hst⟩ := hv
    by_cases hid : sid = id
    · have hj' : lookup reg id = some j := hid ▸ hj
      have hb : statusAt reg id = some .pending := by simp [statusAt, hj', hst]
      have ha : statusAt (applyOp reg (.start sid t)) id = some .running := by
        have h1 := lookup_updateFirst_self (startUpdate t) hj'
        simp [applyOp, statusAt, hid, h1, startUpdate]
      rw [hb, ha]; decide
    · have h1 := @lookup_updateFirst_ne reg sid id (startUpdate t) (fun e => hid e.symm)
      have heq : statusAt (applyOp reg (.start sid t)) id = statusAt reg id := by
        simp [applyOp, statusAt, h1]
      rw [heq]; exact triv _
  | hook hid ev dir =>
    by_cases hh : hookHandles ev
    · by_cases hi : hid = id
      · cases hl : lookup reg id with
        | none =>
          have hl' : lookup reg hid = none := by rw [hi, hl]
          have heq : applyOp reg (.hook hid ev dir) = reg := by
            simp [applyOp, hh, updateFirst_of_lookup_none _ hl']
          rw [heq]; exact triv _
        | some j =>
          have hl' : lookup reg hid = some j := by rw [hi, hl]
          have h1 := lookup_updateFirst_self (hookUpdate ev dir) hl'
          have heq : statusAt (applyOp reg (.hook hid ev dir)) id = statusAt reg id := by
            simp [applyOp, statusAt, hh, hi, hl, hi ▸ h1, hookUpdate]
          rw [heq]; exact triv _
      · have h1 := @lookup_updateFirst_ne reg hid id (hookUpdate ev dir) (fun e => hi e.symm)
        have heq : statusAt (applyOp reg (.hook hid ev dir)) id = statusAt reg id := by
          simp [applyOp, statusAt, hh, h1]
        rw [heq]; exact triv _
    · have heq : applyOp reg (.hook hid ev dir) = reg := by simp [applyOp, hh]
      rw [heq]; exact triv _
  | finishOk fid t path =>
    obtain ⟨j, hj, hst⟩ := hv
    by_cases hid : fid = id
    · have hj' : lookup reg id = some j := hid ▸ hj
      have hb : statusAt reg id = some .running := by simp [statusAt, hj', hst]
      have ha : statusAt (applyOp reg (.finishOk fid t path)) id = some .finished := by
        have h1 := lookup_updateFirst_self (finishOkUpdate t path) hj'
        simp [applyOp, statusAt, hid, h1, finishOkUpdate]
      rw [hb, ha]; decide
    · have h1 := @lookup_updateFirst_ne reg fid id (finishOkUpdate t path) (fun e => hid e.symm)
      have heq : statusAt (applyOp reg (.finishOk fid t path)) id = statusAt reg id := by
        simp [applyOp, statusAt, h1]
      rw [heq]; exact triv _
  | finishErr fid t msg =>
    obtain ⟨j, hj, hst⟩ := hv
    by_cases hid : fid = id
    · have hj' : lookup reg id = some j := hid ▸ hj
      have hb : statusAt reg id = some .running := by simp [statusAt, hj', hst]
      have ha : statusAt (applyOp reg (.finishErr fid t msg)) id = some .failed := by
        have h1 := lookup_updateFirst_self (finishErrUpdate t msg) hj'
        simp [applyOp, statusAt, hid, h1, finishErrUpdate]
      rw [hb, ha]; decide
    · have h1 := @lookup_updateFirst_ne reg fid id (finishErrUpdate t msg) (fun e => hid e.symm)
      have heq : statusAt (applyOp reg (.finishErr fid t msg)) id = statusAt reg id := by
        simp [applyOp, statusAt, h1]
      rw [heq]; exact triv _

/-- C6 witness: the runner's own `running → finished` step at a concrete
registry. -/
theorem claim6_witness :
    lifecycleRank (statusAt demoRunningReg 0) ≤
      lifecycleRank (statusAt (applyOp demoRunningReg (.finishOk 0 2 "out")) 0) ∧
    (isTerminal (statusAt demoRunningReg 0) = true →
      statusAt (applyOp demoRunningReg (.finishOk 0 2 "out")) 0 = statusAt demoRunningReg 0) ∧
    (statusAt demoRunningReg 0 = some .pending →
      statusAt (applyOp demoRunningReg (.finishOk 0 2 "out")) 0 = some .pending ∨
      statusAt (applyOp demoRunningReg (.finishOk 0 2 "out")) 0 = some .running) :=
  claim6_status_monotone demoRunningReg (.finishOk 0 2 "out") 0
    ⟨demoRunningJob, by decide, by decide⟩

/-- C7: along every valid interleaving of the atomic sections starting
from the empty registry, every record satisfies: `result_path` is set iff
its status is `finished`, and `error` is set iff its status is `failed`. -/
theorem claim7_result_error_iff :
    ∀ ops : List Op, ValidTrace [] ops →
      ∀ (id : JobId) (j : Job), lookup (runTrace [] ops) id = some j →
        ((j.result_path ≠ none ↔ j.status = .finished) ∧
          (j.error ≠ none ↔ j.status = .failed)) := by
  intro ops h id j hj
  have hInv := inv_runTrace inv_nil h
  exact ⟨hInv.rp_iff (id, j) (lookup_mem hj), hInv.err_iff (id, j) (lookup_mem hj)⟩

/-- C7 witness: the record left by the demo trace. -/
theorem claim7_witness :
    (demoFinishedJob.result_path ≠ none ↔ demoFinishedJob.status = .finished) ∧
    (demoFinishedJob.error ≠ none ↔ demoFinishedJob.status = .failed) :=
  claim7_result_error_iff demoTrace demoTrace_valid 0 demoFinishedJob (by decide)

/-- C9: `current_episode` is an idempotent re-derivation: the count is 0
when the directory does not exist, it equals the number of file entries
whose (lowercased) suffix matches, and it is a pure function of the
directory contents, so re-evaluating against the same contents always
yields the same value. -/
theorem claim9_count_pure :
    ∀ (folder : Dir) (suffix : String),
      (folder.is_dir = false → count_media_files folder suffix = 0) ∧
      count_media_files folder suffix =
        (if folder.is_dir then
          (folder.entries.filter
            (fun e => e.is_file && ((pathSuffix e.name).toLower == suffix.toLower))).length
         else 0) ∧
      (∀ d : Dir, d.is_dir = folder.is_dir → d.entries = folder.entries →
        count_media_files d suffix = count_media_files folder suffix) := by
  intro folder suffix
  refine ⟨?_, ?_, ?_⟩
  · intro h
    simp [count_media_files, h]
  · by_cases h : folder.is_dir <;>
      simp [count_media_files, h, List.countP_eq_length_filter]
  · intro d h1 h2
    simp only [count_media_files, h1, h2]

/-- C9 witness: the missing-directory case and the pure-function case at a
concrete two-episode listing. -/
theorem claim9_witness :
    count_media_files demoNoDir ".mp4" = 0 ∧
    count_media_files { is_dir := true, entries := demoSeasonDir.entries } ".mp4"
      = count_media_files demoSeasonDir ".mp4" := by
  refine ⟨?_, ?_⟩
  · exact (claim9_count_pure demoNoDir ".mp4").1 rfl
  · exact (claim9_count_pure demoSeasonDir ".mp4").2.2
      { is_dir := true, entries := demoSeasonDir.entries } (by decide) rfl

/-- If the key occurs at most once, every other record is inactive, and
the update makes its target inactive, then no record is active
afterwards. -/
theorem anyActive_updateFirst_eq_false {reg : Reg} {id : JobId} {f : Job → Job}
    (hdup : (reg.map Prod.fst).count id ≤ 1)
    (hothers : ∀ q ∈ reg, Prod.fst q ≠ id → isActiveStatus (Prod.snd q).status = false)
    (hf : ∀ j, isActiveStatus (f j).status = false) :
    anyActive (updateFirst reg id f) = false := by
  induction reg with
  | nil => simp [updateFirst, anyActive]
  | cons hd tl ih =>
    obtain ⟨k, j⟩ := hd
    by_cases hk : k = id
    · simp only [updateFirst, hk, if_pos rfl]
      simp only [anyActive, hf j, Bool.false_or]
      have hcount : (tl.map Prod.fst).count id = 0 := by
        simp [List.count_cons, hk] at hdup
        omega
      have hnot : id ∉ tl.map Prod.fst := List.count_eq_zero.mp hcount
      rw [anyActive_false_iff]
      intro q hq
      refine hothers q (List.mem_cons_of_mem _ hq) ?_
      intro he
      exact hnot (he ▸ List.mem_map_of_mem Prod.fst hq)
    · simp only [updateFirst, hk, if_neg hk, anyActive, Bool.or_eq_false_iff]
      refine ⟨hothers (k, j) (List.mem_cons_self _ _) hk, ih ?_ ?_⟩
      · simp only [List.map_cons, List.count_cons] at hdup
        omega
      · intro q hq hq'
        exact hothers q (List.mem_cons_of_mem _ hq) hq'

/-- C2 counterexample: the code's thresholds are strict, so a rate of
exactly 1 KiB/s is formatted as `"1024 B/s"`, not the `"1.00 KiB/s"` the
claim's `≥` thresholds require. -/
theorem claim2_counterexample :
    formatSpeed (some 1024) = "1024 B/s" ∧ "1024 B/s" ≠ "1.00 KiB/s" := by decide

/-- C2 (amended): speed strings use strict binary thresholds — above
1 GiB/s two-decimal GiB, above 1 MiB/s two-decimal MiB, above 1 KiB/s
two-decimal KiB, otherwise whole bytes (a rate exactly at a boundary falls
in the lower bucket); empty when the rate is unknown or zero; and the
spec's four sample rates format as listed. -/
theorem claim2_speed_format :
    formatSpeed none = "" ∧ formatSpeed (some 0) = "" ∧
    formatSpeed (some 500) = "500 B/s" ∧
    formatSpeed (some 2048) = "2.00 KiB/s" ∧
    formatSpeed (some (5 * 1024 * 1024)) = "5.00 MiB/s" ∧
    formatSpeed (some (3 * 1024 * 1024 * 1024)) = "3.00 GiB/s" ∧
    formatSpeed (some (1024 * 1024)) = "1024.00 KiB/s" ∧
    formatSpeed (some (1024 * 1024 * 1024)) = "1024.00 MiB/s" ∧
    (∀ r : Nat, 0 < r → r ≤ 1024 → formatSpeed (some r) = toString r ++ " B/s") ∧
    (∀ r : Nat, 1024 < r → r ≤ 1024 ^ 2 →
      formatSpeed (some r) = fmt2 r 1024 ++ " KiB/s") ∧
    (∀ r : Nat, 1024 ^ 2 < r → r ≤ 1024 ^ 3 →
      formatSpeed (some r) = fmt2 r (1024 ^ 2) ++ " MiB/s") ∧
    (∀ r : Nat, 1024 ^ 3 < r → formatSpeed (some r) = fmt2 r (1024 ^ 3) ++ " GiB/s") := by
  have e2 : (1024 : Nat) ^ 2 = 1048576 := by norm_num
  have e3 : (1024 : Nat) ^ 3 = 1073741824 := by norm_num
  refine ⟨rfl, by decide, by decide, by decide, by decide, by decide, by decide, by decide,
    ?_, ?_, ?_, ?_⟩
  · intro r h0 h1
    simp only [formatSpeed, e2, e3]
    rw [if_neg (by omega), if_neg (by omega), if_neg (by omega), if_neg (by omega)]
  · intro r h1 h2
    rw [e2] at h2
    simp only [formatSpeed, e2, e3]
    rw [if_neg (by omega), if_neg (by omega), if_neg (by omega), if_pos (by omega)]
  · intro r h1 h2
    rw [e2] at h1
    rw [e3] at h2
    simp only [formatSpeed, e2, e3]
    rw [if_neg (by omega), if_neg (by omega), if_pos (by omega)]
  · intro r h1
    rw [e3] at h1
    simp only [formatSpeed, e2, e3]
    rw [if_neg (by omega), if_pos (by omega)]

/-- C2 witness: the strict-threshold clauses applied at 500 B/s, 2 KiB/s,
5 MiB/s and 3 GiB/s. -/
theorem claim2_witness :
    formatSpeed (some 500) = toString 500 ++ " B/s" ∧
    formatSpeed (some 2048) = fmt2 2048 1024 ++ " KiB/s" ∧
    formatSpeed (some (5 * 1024 * 1024)) = fmt2 (5 * 1024 * 1024) (1024 ^ 2) ++ " MiB/s" ∧
    formatSpeed (some (3 * 1024 * 1024 * 1024))
      = fmt2 (3 * 1024 * 1024 * 1024) (1024 ^ 3) ++ " GiB/s" := by
  refine ⟨?_, ?_, ?_, ?_⟩
  · exact claim2_speed_format.2.2.2.2.2.2.2.2.1 500 (by norm_num) (by norm_num)
  · exact claim2_speed_format.2.2.2.2.2.2.2.2.2.1 2048 (by norm_num) (by norm_num)
  · exact claim2_speed_format.2.2.2.2.2.2.2.2.2.2.1 (5 * 1024 * 1024)
      (by norm_num) (by norm_num)
  · exact claim2_speed_format.2.2.2.2.2.2.2.2.2.2.2 (3 * 1024 * 1024 * 1024) (by norm_num)

/-- C8 counterexample: the code strips surrounding whitespace from the
display name before building the root folder name, so a display name
" Show" yields `"Show [imdbid-tt1234567]"`, not the claim's
`" Show [imdbid-tt1234567]"`. -/
theorem claim8_counterexample :
    main_folder_name demoPaddedPayload = "Show [imdbid-tt1234567]" ∧
    "Show [imdbid-tt1234567]" ≠ " Show [imdbid-tt1234567]" := by decide

/-- C8 (amended): for every validated request, with the display name
stripped of surrounding whitespace, the root folder is
`<stripped name> [imdbid-<catalog id>]`, the season folder is
`Season <season zero-padded to width 2>`, and the output filename
template is `<stripped name> S<2-digit>E<autonumber 2-digit>.<ext>`. -/
theorem claim8_naming :
    ∀ p : RequestPayload, validPayload p →
      main_folder_name p = specRootFolder (py_strip p.name) p.imdbid ∧
      season_folder_name p = specSeasonFolder p.season ∧
      build_output_template (py_strip p.name) p.season =
        specFileTemplate (py_strip p.name) p.season ∧
      (p.season < 10 → pad2 p.season = "0" ++ toString p.season) ∧
      (10 ≤ p.season → pad2 p.season = toString p.season) := by
  intro p hv
  refine ⟨rfl, rfl, ?_, ?_, ?_⟩
  · simp [build_output_template, specFileTemplate, String.append_assoc]
  · intro h
    simp [pad2, h]
  · intro h
    simp [pad2, Nat.not_lt.mpr h]

/-- C8 witness: the naming pieces at the spec's scenario request. -/
theorem claim8_witness :
    main_folder_name demoPayload = specRootFolder (py_strip demoPayload.name) demoPayload.imdbid ∧
    season_folder_name demoPayload = specSeasonFolder demoPayload.season ∧
    build_output_template (py_strip demoPayload.name) demoPayload.season =
      specFileTemplate (py_strip demoPayload.name) demoPayload.season ∧
    (demoPayload.season < 10 → pad2 demoPayload.season = "0" ++ toString demoPayload.season) ∧
    (10 ≤ demoPayload.season → pad2 demoPayload.season = toString demoPayload.season) :=
  claim8_naming demoPayload (by decide)

/-- C4: season-directory creation is exclusive-create (it fails whenever
the directory already exists), and when the season directory pre-exists
the runner leaves the job `failed` with `finished_at` and the directory
conflict message set, and no active record remains in the registry. -/
theorem claim4_season_exclusive :
    (∀ (fs : FS) (pth : DirPath), pth ∈ fs.dirs →
        mkdirExclusive fs pth = .error .already_exists) ∧
    (∀ (base : DirPath) (reg : Reg) (fs : FS) (id : JobId) (p : RequestPayload)
        (tS tE : Nat) (dl : DLInput) (j : Job),
        lookup reg id = some j →
        seasonDirOf base p ∈ fs.dirs →
        (reg.map Prod.fst).count id ≤ 1 →
        (∀ q ∈ reg, Prod.fst q ≠ id → isActiveStatus (Prod.snd q).status = false) →
        ∃ j', lookup (run_download base reg fs id p tS tE dl).1 id = some j' ∧
          j'.status = .failed ∧ j'.finished_at = some tE ∧
          j'.error = some "Season folder already exists" ∧
          anyActive (run_download base reg fs id p tS tE dl).1 = false) := by
  constructor
  · intro fs pth h
    simp [mkdirExclusive, h]
  · intro base reg fs id p tS tE dl j hj hseason hdup hothers
    have hs1 : seasonDirOf base p ∈ (mkdirAll fs (mainDirOf base p)).dirs :=
      mem_mkdirAll_of_mem hseason
    have hmk : mkdirExclusive (mkdirAll fs (mainDirOf base p)) (seasonDirOf base p)
        = .error .already_exists := by simp [mkdirExclusive, hs1]
    have hred : (run_download base reg fs id p tS tE dl).1
        = applyOp (applyOp reg (.start id tS))
            (.finishErr id tE "Season folder already exists") := by
      simp only [run_download, hmk]
    have hcomp : applyOp (applyOp reg (.start id tS))
        (.finishErr id tE "Season folder already exists")
        = updateFirst reg id
            (fun j0 => finishErrUpdate tE "Season folder already exists" (startUpdate tS j0)) := by
      simp only [applyOp]
      exact updateFirst_updateFirst _ _
    rw [hred, hcomp]
    refine ⟨finishErrUpdate tE "Season folder already exists" (startUpdate tS j),
      lookup_updateFirst_self _ hj, rfl, rfl, rfl, ?_⟩
    exact anyActive_updateFirst_eq_false hdup hothers (fun j0 => rfl)

/-- C4 witness: the season directory of the demo request pre-exists, and
the runner fails the job and frees the registry. -/
theorem claim4_witness :
    ∃ j', lookup
        (run_download demoBase demoRunningReg demoFSSeasonTaken 0 demoPayload 1 2 demoDL).1 0
        = some j' ∧
      j'.status = .failed ∧ j'.finished_at = some 2 ∧
      j'.error = some "Season folder already exists" ∧
      anyActive
        (run_download demoBase demoRunningReg demoFSSeasonTaken 0 demoPayload 1 2 demoDL).1
        = false :=
  claim4_season_exclusive.2 demoBase demoRunningReg demoFSSeasonTaken 0 demoPayload 1 2 demoDL
    demoRunningJob (by decide) (by decide) (by decide) (by decide)

/-- C5: whatever the filesystem state and whatever the download does
(any event stream, normal return or any exception), the runner leaves its
job in a terminal state — `finished`, or `failed` with `finished_at` and a
textual error — never stranded at `running` or `pending`. -/
theorem claim5_failures_terminal :
    ∀ (base : DirPath) (reg : Reg) (fs : FS) (id : JobId) (p : RequestPayload)
      (tS tE : Nat) (dl : DLInput) (j : Job),
      lookup reg id = some j →
      ∃ j', lookup (run_download base reg fs id p tS tE dl).1 id = some j' ∧
        j'.status ≠ .running ∧ j'.status ≠ .pending ∧
        (j'.status = .finished ∨
          (j'.status = .failed ∧ j'.finished_at = some tE ∧ j'.error ≠ none)) := by
  intro base reg fs id p tS tE dl j hj
  have h1 : lookup (applyOp reg (.start id tS)) id = some (startUpdate tS j) := by
    simp only [applyOp]
    exact lookup_updateFirst_self _ hj
  cases hmk : mkdirExclusive (mkdirAll fs (mainDirOf base p)) (seasonDirOf base p) with
  | error e =>
    cases e with
    | already_exists =>
      refine ⟨finishErrUpdate tE "Season folder already exists" (startUpdate tS j), ?_,
        by simp [finishErrUpdate], by simp [finishErrUpdate],
        Or.inr ⟨rfl, rfl, by simp [finishErrUpdate]⟩⟩
      simp only [run_download, hmk, applyOp]
      exact lookup_updateFirst_self _ h1
    | missing_parent =>
      refine ⟨finishErrUpdate tE "No such file or directory" (startUpdate tS j), ?_,
        by simp [finishErrUpdate], by simp [finishErrUpdate],
        Or.inr ⟨rfl, rfl, by simp [finishErrUpdate]⟩⟩
      simp only [run_download, hmk, applyOp]
      exact lookup_updateFirst_self _ h1
  | ok fs2 =>
    obtain ⟨j2, h2, hs2, hf2, he2, hr2⟩ := lookup_runHooks dl.events h1
    cases ho : dl.outcome with
    | error msg =>
      refine ⟨finishErrUpdate tE msg j2, ?_,
        by simp [finishErrUpdate], by simp [finishErrUpdate],
        Or.inr ⟨rfl, rfl, by simp [finishErrUpdate]⟩⟩
      simp only [run_download, hmk, ho, applyOp]
      exact lookup_updateFirst_self _ h2
    | ok u =>
      refine ⟨finishOkUpdate tE (pathString (seasonDirOf base p)) j2, ?_,
        by simp [finishOkUpdate], by simp [finishOkUpdate], Or.inl rfl⟩
      simp only [run_download, hmk, ho, applyOp]
      exact lookup_updateFirst_self _ h2

/-- C5 witness: a concrete successful run ends `finished`, not
`running`. -/
theorem claim5_witness :
    ∃ j', lookup (run_download demoBase demoRunningReg demoFS 0 demoPayload 1 2 demoDL).1 0
        = some j' ∧
      j'.status ≠ .running ∧ j'.status ≠ .pending ∧
      (j'.status = .finished ∨
        (j'.status = .failed ∧ j'.finished_at = some 2 ∧ j'.error ≠ none)) :=
  claim5_failures_terminal demoBase demoRunningReg demoFS 0 demoPayload 1 2 demoDL
    demoRunningJob (by decide)

/-- C10: root-folder creation has exist-ok semantics (it keeps whatever
exists and creates the folder and all its missing parents, never
failing), and a pre-existing root folder alone does not fail the job:
with the root present but the season folder absent, a normally returning
download ends the job `finished`. -/
theorem claim10_root_exist_ok :
    (∀ (fs : FS) (pth q : DirPath),
        q ∈ fs.dirs ∨ q ∈ pathPrefixes pth → q ∈ (mkdirAll fs pth).dirs) ∧
    (∀ (base : DirPath) (reg : Reg) (fs : FS) (id : JobId) (p : RequestPayload)
        (tS tE : Nat) (dl : DLInput) (j : Job),
        lookup reg id = some j →
        mainDirOf base p ∈ fs.dirs →
        seasonDirOf base p ∉ fs.dirs →
        dl.outcome = .ok () →
        ∃ j', lookup (run_download base reg fs id p tS tE dl).1 id = some j' ∧
          j'.status = .finished ∧
          j'.result_path = some (pathString (seasonDirOf base p))) := by
  constructor
  · intro fs pth q h
    rcases h with h | h
    · exact mem_mkdirAll_of_mem h
    · exact mem_mkdirAll_of_prefix h
  · intro base reg fs id p tS tE dl j hj hmain hseason houtcome
    have hnotin : seasonDirOf base p ∉ (mkdirAll fs (mainDirOf base p)).dirs := by
      intro hmem
      rcases mem_of_mem_mkdirAll hmem with h | h
      · exact hseason h
      · have hlen := length_le_of_mem_pathPrefixes h
        simp [seasonDirOf, mainDirOf] at hlen
    have hdrop : (seasonDirOf base p).dropLast = mainDirOf base p := by
      simp [seasonDirOf]
    have hparent : (seasonDirOf base p).dropLast ∈ (mkdirAll fs (mainDirOf base p)).dirs := by
      rw [hdrop]
      exact mem_mkdirAll_of_mem hmain
    have hmk : mkdirExclusive (mkdirAll fs (mainDirOf base p)) (seasonDirOf base p)
        = .ok { dirs := seasonDirOf base p :: (mkdirAll fs (mainDirOf base p)).dirs } := by
      simp [mkdirExclusive, hnotin, hparent]
    have h1 : lookup (applyOp reg (.start id tS)) id = some (startUpdate tS j) := by
      simp only [applyOp]
      exact lookup_updateFirst_self _ hj
    obtain ⟨j2, h2, hs2, hf2, he2, hr2⟩ := lookup_runHooks dl.events h1
    refine ⟨finishOkUpdate tE (pathString (seasonDirOf base p)) j2, ?_, rfl, rfl⟩
    simp only [run_download, hmk, houtcome, applyOp]
    exact lookup_updateFirst_self _ h2

/-- C10 witness: with only the root folder pre-existing, the demo run
finishes normally. -/
theorem claim10_witness :
    ∃ j', lookup (run_download demoBase demoRunningReg demoFSRootOnly 0 demoPayload 1 2 demoDL).1 0
        = some j' ∧
      j'.status = .finished ∧
      j'.result_path = some (pathString (seasonDirOf demoBase demoPayload)) :=
  claim10_root_exist_ok.2 demoBase demoRunningReg demoFSRootOnly 0 demoPayload 1 2 demoDL
    demoRunningJob (by decide) (by decide) (by decide) rfl

end Jellydump
